import Mathlib

/-!
Verification development for the lazy indexed-mzML reader.

The Rust source (src/lib.rs) is embedded shallowly:

* file contents and XML fragments are `List Char` (the files handled by the
  reader are ASCII, so bytes and chars coincide);
* `std::str::find` (substring search returning the first byte offset) is
  `findSub`;
* `HashMap<String, usize>` is an association list with last-write-wins
  insertion (`insertHM`), looked up by `lookupA`;
* the unbounded `loop` of `LazyMzML::fetch_scan_data` becomes the
  fuel-indexed `fetchLoop`; exhausting the fuel yields the distinguished
  result `FetchResult.diverged`, so that a run that never finds the closing
  marker is the run that is `diverged` for every fuel;
* `panic!` / `.expect(...)` / `.unwrap()` become explicit `panicked`
  constructors of the result types;
* IEEE-754 reinterpretation (`f64::from_le_bytes` / `f32::from_le_bytes`)
  is kept at the level of the little-endian byte chunks themselves: a
  decoded "float" is represented by its complete `w`-byte chunk, which is
  in bijection with the float bit pattern, so counting, ordering and
  truncation of decoded elements are faithfully represented;
* zlib inflation (the external `zune_inflate` crate) is a parameter
  `inflate : List Nat → Option (List Nat)` of the decoder; base64 decoding
  of the standard alphabet is implemented concretely (`base64_decode`).
-/

namespace MzmlModel

/-! ## String searching (model of Rust `str::find`) -/

/-- `matchesAt pat hay` holds when `pat` occurs at the very start of `hay`. -/
def matchesAt : List Char → List Char → Bool
  | [], _ => true
  | _ :: _, [] => false
  | p :: ps, h :: hs => if p = h then matchesAt ps hs else false

/-- Model of Rust `str::find(pat)`: index of the first occurrence of the
substring `pat` in `hay`, if any. -/
def findSub (pat : List Char) : List Char → Option Nat
  | [] => if matchesAt pat [] then some 0 else none
  | h :: t =>
    if matchesAt pat (h :: t) then some 0
    else (findSub pat t).map (· + 1)

/-- Model of Rust `name.find(pat).is_some()` on `String`s. -/
def containsName (s : String) (pat : String) : Bool :=
  (findSub pat.toList s.toList).isSome

/-! ## Association-list model of `HashMap<String, usize>` -/

/-- `HashMap::insert`: replace the value of an existing key, else add the
key at the end.  Last write wins. -/
def insertHM : List (String × Nat) → String → Nat → List (String × Nat)
  | [], k, v => [(k, v)]
  | (k0, v0) :: t, k, v =>
    if k0 = k then (k0, v) :: t else (k0, v0) :: insertHM t k v

/-- `HashMap::get`. -/
def lookupA : List (String × Nat) → String → Option Nat
  | [], _ => none
  | (k0, v0) :: t, k => if k0 = k then some v0 else lookupA t k

/-! ## Data model (the serde structures of src/lib.rs) -/

/-- `ControlledVocabularyParameter` (src/mass_spectrum.rs). -/
structure CVParam where
  name : String
  value : String
  unitName : Option String
deriving DecidableEq

/-- `Offset`: one entry of an index section. -/
structure Offset where
  idRef : String
  offset : Nat
deriving DecidableEq

/-- `Index`: one index section (`name` is "spectrum" or "chromatogram"). -/
structure Index where
  name : String
  offsets : List Offset
deriving DecidableEq

/-- `IndexList`. -/
structure IndexList where
  count : Nat
  indexs : List Index
deriving DecidableEq

/-- One acquisition entry (`Scan` in the source). -/
structure Scan where
  cvParam : List CVParam
deriving DecidableEq

/-- `ScanList`. -/
structure ScanList where
  scan : List Scan
deriving DecidableEq

/-- `ScanWithoutData`: scan metadata only.  (The `precursor_list` field of
the source carries no behaviour used by any modelled operation and is
omitted from the embedding.) -/
structure ScanWithoutData where
  index : Nat
  id : String
  defaultArrayLength : Nat
  cvParam : List CVParam
  scanList : ScanList
deriving DecidableEq

/-- `BinaryDataArray`: one base64 blob plus its cv records. -/
structure BinaryDataArray where
  encodedLength : Nat
  cvParam : List CVParam
  binary : String
deriving DecidableEq

/-- `BinaryDataArrayList`. -/
structure BinaryDataArrayList where
  count : Nat
  arrays : List BinaryDataArray
deriving DecidableEq

/-- `ScanWithData`: metadata plus binary arrays. -/
structure ScanWithData where
  index : Nat
  id : String
  defaultArrayLength : Nat
  cvParam : List CVParam
  scanList : ScanList
  binaryDataArrayList : BinaryDataArrayList
deriving DecidableEq

/-- `IndexedMzML`: the parsed envelope.  `spectra` is
`mzML.run.spectrumList.spectra`; the software list and chromatogram list
are collaborators that do not influence any modelled operation. -/
structure IndexedMzML where
  spectra : List ScanWithoutData
  indexList : Option IndexList
  index : Option Index
  indexListOffset : Nat
  fileChecksum : String
deriving DecidableEq

/-- `LazyMzML`: the lazy store.  The `File` handle is embedded as the
file's contents. -/
structure LazyMzML where
  mzmlStruct : IndexedMzML
  fileContent : List Char
  scanOffsets : List (String × Nat)
  chromatogramOffsets : List (String × Nat)
deriving DecidableEq

/-! ## Construction (`LazyMzML::new`, src/lib.rs lines 33-85) -/

/-- Outcome of `LazyMzML::new` after the envelope has parsed: either a
store, or a process abort (`.expect(...)`). -/
inductive NewResult where
  | ok (store : LazyMzML)
  | panicked (msg : String)
deriving DecidableEq

/-- Build one offset mapping exactly as the source's
`offsets.iter().for_each(|o| map.insert(o.id_ref, o.offset))`. -/
def buildOffsetMap (offsets : List Offset) : List (String × Nat) :=
  offsets.foldl (fun m o => insertHM m o.idRef o.offset) []

/-- `LazyMzML::new` on an already parsed envelope.  The source first
normalises `index_list`/`index` into an `IndexList`, then `.expect`s a
"spectrum" and a "chromatogram" index. -/
def LazyMzML.new (fileContent : List Char) (mzml : IndexedMzML) : NewResult :=
  let indexList : IndexList :=
    match mzml.indexList with
    | some i => i
    | none =>
      match mzml.index with
      | some index => { count := 1, indexs := [index] }
      | none => { count := 0, indexs := [] }
  match indexList.indexs.find? (fun index => index.name == "spectrum") with
  | none => .panicked "All indexed mzML should have a spectrum index"
  | some spectrumIndex =>
    match indexList.indexs.find? (fun index => index.name == "chromatogram") with
    | none => .panicked "All indexed mzML should have a chromatogram index"
    | some chromatogramIndex =>
      .ok { mzmlStruct := mzml
            fileContent := fileContent
            scanOffsets := buildOffsetMap spectrumIndex.offsets
            chromatogramOffsets := buildOffsetMap chromatogramIndex.offsets }

/-! ## Bounded element extraction (`fetch_scan_data`, src/lib.rs 110-135) -/

/-- Result of the extraction loop.  `diverged` is returned when the fuel
runs out: a run that is `diverged` for every fuel is a run of the Rust
loop that never terminates. -/
inductive FetchResult where
  | fragment (xml : List Char)
  | failed
  | diverged
deriving DecidableEq

/-- The closing marker searched for by `fetch_scan_data`. -/
def closingMarker : List Char := "</spectrum>".toList

/-- The search window of the source: the last `bs` bytes of the
accumulated string (`xml_string[len.checked_sub(BUFFER_SIZE).unwrap_or_default()..]`). -/
def window (bs : Nat) (xml : List Char) : List Char :=
  xml.drop (xml.length - bs)

/-- The `loop` of `fetch_scan_data`.  Each iteration reads the next chunk
of at most `bs` bytes of `content` (a `read` at end-of-file returns 0
bytes), appends it, searches the window for `pat`, and on a hit truncates
the buffer at `number_of_buffers * BUFFER_SIZE + n + 11`. -/
def fetchLoop (bs : Nat) (pat content : List Char) :
    Nat → Nat → List Char → Nat → FetchResult
  | 0, _, _, _ => .diverged
  | fuel + 1, pos, xml, numBuffers =>
    let chunk := (content.drop pos).take bs
    let xml2 := xml ++ chunk
    match findSub pat (window bs xml2) with
    | some n => .fragment (xml2.take (numBuffers * bs + n + 11))
    | none => fetchLoop bs pat content fuel (pos + chunk.length) xml2 (numBuffers + 1)

/-- `LazyMzML::fetch_scan_data`: look the scan's id up in `scan_offsets`
(the `?` on a miss yields `failed`, i.e. `None`), then run the chunked
scan from that byte offset with `BUFFER_SIZE = 8000`.  The final
`from_str(&xml_string).unwrap()` XML parse of the fragment is outside the
model: the raw fragment stands for the parsed `ScanWithData`. -/
def LazyMzML.fetch_scan_data (self : LazyMzML) (fuel : Nat)
    (scan : ScanWithoutData) : FetchResult :=
  match lookupA self.scanOffsets scan.id with
  | none => .failed
  | some offset => fetchLoop 8000 closingMarker self.fileContent fuel offset [] 0

/-- One item of `iter_spectrum`: the source maps
`self.fetch_scan_data(s).expect("Spectrum data should be retrievable")`
over the spectra, so a per-item `None` is a process abort. -/
inductive SpectrumItem where
  | item (xml : List Char)
  | panicked
  | diverged
deriving DecidableEq

/-- `LazyMzML::iter_spectrum` (src/lib.rs 97-108). -/
def LazyMzML.iter_spectrum (self : LazyMzML) (fuel : Nat) : List SpectrumItem :=
  self.mzmlStruct.spectra.map fun s =>
    match self.fetch_scan_data fuel s with
    | .fragment x => .item x
    | .failed => .panicked
    | .diverged => .diverged

/-! ## Base64 (standard alphabet, model of `general_purpose::STANDARD.decode`) -/

/-- Value of one base64 symbol of the standard alphabet. -/
def b64Val (c : Char) : Option Nat :=
  if 'A' ≤ c ∧ c ≤ 'Z' then some (c.toNat - 65)
  else if 'a' ≤ c ∧ c ≤ 'z' then some (c.toNat - 71)
  else if '0' ≤ c ∧ c ≤ '9' then some (c.toNat + 4)
  else if c = '+' then some 62
  else if c = '/' then some 63
  else none

/-- Standard-alphabet base64 decoding with canonical padding, processed in
groups of four symbols; `'='` padding is accepted only in the final group
and trailing bits must be zero, as in the strict `base64` crate engine. -/
def base64_decode : List Char → Option (List Nat)
  | [] => some []
  | [c1, c2, '=', '='] => do
    let v1 ← b64Val c1
    let v2 ← b64Val c2
    if v2 % 16 = 0 then some [v1 * 4 + v2 / 16] else none
  | [c1, c2, c3, '='] => do
    let v1 ← b64Val c1
    let v2 ← b64Val c2
    let v3 ← b64Val c3
    if v3 % 4 = 0 then
      some [v1 * 4 + v2 / 16, v2 % 16 * 16 + v3 / 4]
    else none
  | c1 :: c2 :: c3 :: c4 :: rest => do
    let v1 ← b64Val c1
    let v2 ← b64Val c2
    let v3 ← b64Val c3
    let v4 ← b64Val c4
    let more ← base64_decode rest
    some ([v1 * 4 + v2 / 16, v2 % 16 * 16 + v3 / 4, v3 % 4 * 64 + v4] ++ more)
  | _ => none

/-! ## Binary array decoding (`BinaryDataArray`, src/lib.rs 413-472) -/

/-- One turn of the `for param in self.cv_param.iter()` loop of
`find_zlib_and_float_size`: substring-match "32-bit float", then
"64-bit float", then "zlib", each overwriting on a hit. -/
def fzfsStep (acc : Bool × Nat) (param : CVParam) : Bool × Nat :=
  let fs1 := if containsName param.name "32-bit float" then 32 else acc.2
  let fs2 := if containsName param.name "64-bit float" then 64 else fs1
  let zl := if containsName param.name "zlib" then true else acc.1
  (zl, fs2)

/-- `BinaryDataArray::find_zlib_and_float_size`: scan the cv records,
starting from `(zlib, float_size) = (false, 64)`. -/
def find_zlib_and_float_size (cv : List CVParam) : Bool × Nat :=
  cv.foldl fzfsStep (false, 64)

/-- The complete 8-byte chunks of a byte sequence, in order: the
`binary.chunks(8)` loop of `decode` with its `chunk.len() == 8` guard,
which silently ignores a trailing incomplete chunk.  Each chunk stands
for the `f64` obtained by `f64::from_le_bytes`, a bijection of 8-byte
chunks and float bit patterns. -/
def reinterp64 : List Nat → List (List Nat)
  | b0 :: b1 :: b2 :: b3 :: b4 :: b5 :: b6 :: b7 :: rest =>
    [b0, b1, b2, b3, b4, b5, b6, b7] :: reinterp64 rest
  | _ => []

/-- The complete 4-byte chunks, for the 32-bit branch of `decode`
(`f32::from_le_bytes` widened to `f64`). -/
def reinterp32 : List Nat → List (List Nat)
  | b0 :: b1 :: b2 :: b3 :: rest => [b0, b1, b2, b3] :: reinterp32 rest
  | _ => []

/-- Outcome of `BinaryDataArray::decode`: decoded chunks, a typed error
(base64 / zlib), or the `panic!("Unknow data size...")` abort. -/
inductive DecodeResult where
  | ok (data : List (List Nat))
  | errBase64
  | errZlib
  | panicked
deriving DecidableEq

/-- The `match float_size` at the end of `decode`: arms `64`, `32`, and a
`panic!` catch-all. -/
def decodeFloats (floatSize : Nat) (binary : List Nat) : DecodeResult :=
  if floatSize = 64 then .ok (reinterp64 binary)
  else if floatSize = 32 then .ok (reinterp32 binary)
  else .panicked

/-- `BinaryDataArray::decode`.  `inflate` is the external zlib-DEFLATE
decoder (`zune_inflate`), a parameter of the embedding. -/
def BinaryDataArray.decode (inflate : List Nat → Option (List Nat))
    (a : BinaryDataArray) : DecodeResult :=
  match base64_decode a.binary.toList with
  | none => .errBase64
  | some bytes =>
    let zf := find_zlib_and_float_size a.cvParam
    match (if zf.1 then inflate bytes else some bytes) with
    | none => .errZlib
    | some binary => decodeFloats zf.2 binary

/-! ## Peaks (`impl MassSpectrum for ScanWithData`, src/lib.rs 289-304) -/

/-- `BinaryDataArrayList::find_binary_by_cv_name`: first array having a cv
record whose name contains `cvName` as a substring. -/
def BinaryDataArrayList.find_binary_by_cv_name (l : BinaryDataArrayList)
    (cvName : String) : Option BinaryDataArray :=
  l.arrays.find? fun array =>
    array.cvParam.any fun c => containsName c.name cvName

/-- Outcome of `peaks()`: zipped pairs, a propagated typed decode error, or
one of the `.expect(...)` process aborts. -/
inductive PeaksResult where
  | ok (pairs : List (List Nat × List Nat))
  | errBase64
  | errZlib
  | panicked
deriving DecidableEq

/-- `ScanWithData::peaks`: `.expect` the "m/z array" and "intensity array"
arrays, decode both (`?` propagates decode errors), and zip. -/
def ScanWithData.peaks (inflate : List Nat → Option (List Nat))
    (s : ScanWithData) : PeaksResult :=
  match s.binaryDataArrayList.find_binary_by_cv_name "m/z array" with
  | none => .panicked
  | some mzArray =>
    match s.binaryDataArrayList.find_binary_by_cv_name "intensity array" with
    | none => .panicked
    | some intensityArray =>
      match mzArray.decode inflate with
      | .errBase64 => .errBase64
      | .errZlib => .errZlib
      | .panicked => .panicked
      | .ok mz =>
        match intensityArray.decode inflate with
        | .errBase64 => .errBase64
        | .errZlib => .errZlib
        | .panicked => .panicked
        | .ok intensity => .ok (mz.zip intensity)

/-! ## Retention time (`rt`, src/lib.rs 305-368) -/

/-- A positive decimal numeral, as an exact rational: the idealisation of
`str::parse::<f32>` on the plain decimal literals the format carries
(signs and exponents are not used by the modelled data). -/
def digitsToNatAux : Nat → List Char → Option Nat
  | acc, [] => some acc
  | acc, c :: cs =>
    if '0' ≤ c ∧ c ≤ '9' then digitsToNatAux (acc * 10 + (c.toNat - 48)) cs
    else none

/-- Split a decimal literal `d*.d*` or `d+` into integer part, fraction
part and fraction length (all naturals, so that the parse itself is
kernel-evaluable). -/
def parseDecimalParts (s : List Char) : Option (Nat × Nat × Nat) :=
  let ip := s.takeWhile fun c => c ≠ '.'
  let rest := s.dropWhile fun c => c ≠ '.'
  match rest with
  | [] =>
    if ip = [] then none
    else (digitsToNatAux 0 ip).map fun n => (n, 0, 0)
  | _ :: frac =>
    if ip = [] ∧ frac = [] then none
    else
      match digitsToNatAux 0 ip, digitsToNatAux 0 frac with
      | some i, some f => some (i, f, frac.length)
      | _, _ => none

/-- Parse a decimal literal into an exact rational. -/
def parseDecimal (s : List Char) : Option ℚ :=
  (parseDecimalParts s).map fun p => (p.1 : ℚ) + (p.2.1 : ℚ) / (10 : ℚ) ^ p.2.2

/-- Outcome of `rt()`: absent (`None`), a retention time in minutes (the
unit of `uom::si::f32::Time` values reported by the trait), or the
`.unwrap()` abort on an unparsable value. -/
inductive RtResult where
  | noneR
  | mk (minutes : ℚ)
  | panicked
deriving DecidableEq

/-- The predicate of the source's
`c.name.find("scan start time").is_some()`. -/
def isScanStartTime (c : CVParam) : Bool :=
  containsName c.name "scan start time"

/-- The `rt` body shared verbatim by `impl MassScan for ScanWithoutData`
and `impl MassScan for ScanWithData`: first acquisition entry (`first()?`),
its "scan start time" cv record (`find(..)?`), `value.parse().unwrap()`,
then `unit_name.as_ref()?` — an absent unit returns `None` — and the unit
match sends "second" to seconds (= value/60 minutes) and anything else,
"minute" included, to minutes. -/
def rtFromScanList (sl : ScanList) : RtResult :=
  match sl.scan.head? with
  | none => .noneR
  | some first =>
    match first.cvParam.find? isScanStartTime with
    | none => .noneR
    | some rtCv =>
      match parseDecimal rtCv.value.toList with
      | none => .panicked
      | some time =>
        match rtCv.unitName with
        | none => .noneR
        | some u =>
          if u = "minute" then .mk time
          else if u = "second" then .mk (time / 60)
          else .mk time

/-- `impl MassScan for ScanWithoutData`, method `rt`. -/
def ScanWithoutData.rt (s : ScanWithoutData) : RtResult :=
  rtFromScanList s.scanList

/-- `impl MassScan for ScanWithData`, method `rt` (the source repeats the
same body verbatim). -/
def ScanWithData.rt (s : ScanWithData) : RtResult :=
  rtFromScanList s.scanList

/-! ## Concrete instances used by the theorems below -/

/-- A metadata-only scan with id "s1". -/
def scanA : ScanWithoutData :=
  { index := 0, id := "s1", defaultArrayLength := 0, cvParam := []
    scanList := { scan := [] } }

/-- An indexed envelope whose spectrum index maps "s1" to byte offset 0. -/
def mzmlEnvA : IndexedMzML :=
  { spectra := [scanA]
    indexList := some
      { count := 2
        indexs :=
          [ { name := "spectrum", offsets := [{ idRef := "s1", offset := 0 }] }
          , { name := "chromatogram", offsets := [] } ] }
    index := none, indexListOffset := 0, fileChecksum := "" }

/-- A store over a truncated file whose content "abc" has no closing
marker at all. -/
def storeA : LazyMzML :=
  { mzmlStruct := mzmlEnvA, fileContent := "abc".toList
    scanOffsets := [("s1", 0)], chromatogramOffsets := [] }

/-- File content whose only "</spectrum>" occupies bytes 7995..8005, i.e.
straddles the boundary between the first and second 8000-byte read. -/
def content4 : List Char :=
  List.replicate 7995 'a' ++ closingMarker ++ List.replicate 8000 'a'

/-- A store over `content4`, with scan "s1" at byte offset 0. -/
def storeB : LazyMzML :=
  { mzmlStruct := mzmlEnvA, fileContent := content4
    scanOffsets := [("s1", 0)], chromatogramOffsets := [] }

/-- First 8000-byte read of `content4`: ends with the first 5 bytes of the
marker. -/
def chunk4A : List Char := List.replicate 7995 'a' ++ closingMarker.take 5

/-- Second 8000-byte read of `content4`: starts with the last 6 bytes of
the marker. -/
def chunk4B : List Char := closingMarker.drop 5 ++ List.replicate 7994 'a'

/-- Third (final, short) read of `content4`. -/
def chunk4C : List Char := List.replicate 6 'a'

/-- A parsed envelope of a non-indexed file: neither an index list nor a
bare index element. -/
def mzmlNoIndex : IndexedMzML :=
  { spectra := [], indexList := none, index := none
    indexListOffset := 0, fileChecksum := "" }

/-- A parsed envelope that declares itself indexed but whose index list
lacks the "spectrum" category. -/
def mzmlChromOnly : IndexedMzML :=
  { spectra := []
    indexList := some { count := 1, indexs := [{ name := "chromatogram", offsets := [] }] }
    index := none, indexListOffset := 0, fileChecksum := "" }

/-- An indexed envelope whose spectrum index has no offset entry for the
(sole) spectrum "s1". -/
def mzmlEnvC : IndexedMzML :=
  { spectra := [scanA]
    indexList := some
      { count := 2
        indexs :=
          [ { name := "spectrum", offsets := [] }
          , { name := "chromatogram", offsets := [] } ] }
    index := none, indexListOffset := 0, fileChecksum := "" }

/-- The store built by `LazyMzML.new` from `mzmlEnvC`: its scan-offset
mapping is empty, so fetching "s1" fails per item. -/
def storeC : LazyMzML :=
  { mzmlStruct := mzmlEnvC, fileContent := []
    scanOffsets := [], chromatogramOffsets := [] }

/-- A fetched scan with no binary arrays at all (no "m/z array"). -/
def scanD0 : ScanWithData :=
  { index := 0, id := "s1", defaultArrayLength := 0, cvParam := []
    scanList := { scan := [] }
    binaryDataArrayList := { count := 0, arrays := [] } }

/-- A scan whose "scan start time" record has value "2.5" and no unit. -/
def scan6 : ScanWithoutData :=
  { index := 0, id := "s6", defaultArrayLength := 0, cvParam := []
    scanList := { scan := [{ cvParam := [{ name := "scan start time", value := "2.5", unitName := none }] }] } }

/-- An acquisition list whose "scan start time" record has value "2.5" and
unit "second". -/
def scanList6s : ScanList :=
  { scan := [{ cvParam := [{ name := "scan start time", value := "2.5", unitName := some "second" }] }] }

/-- An m/z array of two 64-bit little-endian zeros: base64 of 16 zero
bytes. -/
def mzBda7 : BinaryDataArray :=
  { encodedLength := 24
    cvParam := [{ name := "m/z array", value := "", unitName := none }]
    binary := "AAAAAAAAAAAAAAAAAAAAAA==" }

/-- An intensity array of one 64-bit little-endian zero: base64 of 8 zero
bytes. -/
def intBda7 : BinaryDataArray :=
  { encodedLength := 12
    cvParam := [{ name := "intensity array", value := "", unitName := none }]
    binary := "AAAAAAAAAAA=" }

/-- A fetched scan whose decoded m/z array (2 values) and intensity array
(1 value) have different lengths. -/
def scan7 : ScanWithData :=
  { index := 0, id := "s7", defaultArrayLength := 2, cvParam := []
    scanList := { scan := [] }
    binaryDataArrayList := { count := 2, arrays := [mzBda7, intBda7] } }

/-- The identity "inflater": adequate wherever no array carries the zlib
flag. -/
def inflId : List Nat → Option (List Nat) := fun b => some b

/-- A binary array with no cv records at all (no precision flag). -/
def bdaPlain : BinaryDataArray :=
  { encodedLength := 0, cvParam := [], binary := "" }

/-- The byte offset of the last index entry with a given reference id, in
parse order — the spec's "last one parsed wins" reading. -/
def lastOffsetWins (offsets : List Offset) (id : String) : Option Nat :=
  offsets.foldl (fun acc o => if o.idRef = id then some o.offset else acc) none

/-! # Theorems -/

/-! ## Substring-search lemmas -/

/-- A match at the front of `s` survives appending on the right. -/
theorem matchesAt_append (pat s t : List Char) (h : matchesAt pat s = true) :
    matchesAt pat (s ++ t) = true := by
  induction pat generalizing s with
  | nil => rfl
  | cons p ps ih =>
    cases s with
    | nil => simp [matchesAt] at h
    | cons h0 hs =>
      rw [List.cons_append]
      rw [matchesAt] at h ⊢
      by_cases hp : p = h0
      · simp only [hp, if_true] at h ⊢
        exact ih hs h
      · simp [hp] at h

/-- If `findSub` fails, the pattern matches at no position. -/
theorem findSub_none_matchesAt (pat s : List Char) (h : findSub pat s = none)
    (k : Nat) : matchesAt pat (s.drop k) = false := by
  induction s generalizing k with
  | nil =>
    rw [findSub] at h
    rw [List.drop_nil]
    by_cases hm : matchesAt pat []
    · simp [hm] at h
    · simpa using hm
  | cons h0 t ih =>
    rw [findSub] at h
    by_cases hm : matchesAt pat (h0 :: t)
    · simp [hm] at h
    · simp only [hm, if_false, Bool.false_eq_true] at h
      have ht : findSub pat t = none := by
        cases hft : findSub pat t <;> simp [hft] at h ⊢
      cases k with
      | zero => simpa using (Bool.eq_false_iff.mpr hm)
      | succ k => rw [List.drop_succ_cons]; exact ih ht k

/-- If `findSub` succeeds at `n`, the pattern matches at position `n`. -/
theorem findSub_some_matchesAt (pat s : List Char) (n : Nat)
    (h : findSub pat s = some n) : matchesAt pat (s.drop n) = true := by
  induction s generalizing n with
  | nil =>
    rw [findSub] at h
    by_cases hm : matchesAt pat []
    · simp only [hm, if_true, Option.some.injEq] at h
      subst h; simpa using hm
    · simp [hm] at h
  | cons h0 t ih =>
    rw [findSub] at h
    by_cases hm : matchesAt pat (h0 :: t)
    · simp only [hm, if_true, Option.some.injEq] at h
      subst h; simpa using hm
    · simp only [hm, if_false, Bool.false_eq_true] at h
      cases hft : findSub pat t with
      | none => rw [hft] at h; simp at h
      | some m =>
        rw [hft] at h
        simp only [Option.map_some', Option.some.injEq] at h
        subst h
        rw [List.drop_succ_cons]
        exact ih m hft

/-- Dropping as many elements as a `take` returned equals dropping the
requested count. -/
theorem drop_take_length {α : Type} (R : List α) (n : Nat) :
    R.drop (R.take n).length = R.drop n := by
  rw [List.length_take]
  rcases le_total n R.length with h | h
  · rw [min_eq_left h]
  · rw [min_eq_right h, List.drop_length, List.drop_eq_nil_of_le h]

/-! ## C1: the extraction loop on a file with no closing marker -/

/-- If the marker does not occur anywhere in the content from the seek
offset on, every iteration of the read loop fails to find it and the loop
never terminates (every fuel is exhausted). -/
theorem fetchLoop_diverges_of_no_marker (bs : Nat) (pat content : List Char)
    (offset : Nat) (hno : findSub pat (content.drop offset) = none) :
    ∀ (fuel pos : Nat) (xml : List Char) (nb : Nat),
      xml ++ content.drop pos = content.drop offset →
      fetchLoop bs pat content fuel pos xml nb = .diverged := by
  intro fuel
  induction fuel with
  | zero => intro pos xml nb _; rfl
  | succ fuel ih =>
    intro pos xml nb hinv
    have hinv2 : (xml ++ (content.drop pos).take bs)
        ++ content.drop (pos + ((content.drop pos).take bs).length)
        = content.drop offset := by
      rw [List.append_assoc, ← hinv]
      congr 1
      rw [← List.drop_drop, drop_take_length, List.take_append_drop]
    have hfind : findSub pat (window bs (xml ++ (content.drop pos).take bs)) = none := by
      set xml2 := xml ++ (content.drop pos).take bs with hxml2
      cases hfs : findSub pat (window bs xml2) with
      | none => rfl
      | some n =>
        exfalso
        have hm := findSub_some_matchesAt _ _ _ hfs
        rw [window, List.drop_drop] at hm
        set k := xml2.length - bs + n with hk
        have hmD : matchesAt pat ((content.drop offset).drop k) = true := by
          rw [← hinv2, List.drop_append_eq_append_drop]
          exact matchesAt_append _ _ _ hm
        rw [findSub_none_matchesAt pat _ hno k] at hmD
        exact Bool.false_ne_true hmD
    rw [fetchLoop]
    simp only [hfind]
    exact ih _ _ _ hinv2

/-- C1 (code_bug): on a file whose content has no "</spectrum>" at or
after the scan's byte offset, `fetch_scan_data` never terminates: for
every fuel the loop is still running.  The code has no total-bytes-read
ceiling and no `BoundaryNotFoundError` (no such variant exists in
`MzMLParseError`); at end-of-file `read` returns 0 bytes forever and the
loop spins unboundedly, contradicting the claim. -/
theorem fetch_truncated_file_loops_forever (store : LazyMzML)
    (scan : ScanWithoutData) (offset fuel : Nat)
    (hoff : lookupA store.scanOffsets scan.id = some offset)
    (hno : findSub closingMarker (store.fileContent.drop offset) = none) :
    store.fetch_scan_data fuel scan = .diverged := by
  unfold LazyMzML.fetch_scan_data
  rw [hoff]
  exact fetchLoop_diverges_of_no_marker 8000 _ _ offset hno fuel offset [] 0
    (by rw [List.nil_append])

/-- Witness for C1: the store over file content "abc" (no marker), scan
"s1" at offset 0, fuel 5. -/
theorem fetch_truncated_file_loops_forever_witness :
    lookupA storeA.scanOffsets scanA.id = some 0 ∧
    findSub closingMarker (storeA.fileContent.drop 0) = none ∧
    storeA.fetch_scan_data 5 scanA = FetchResult.diverged :=
  ⟨by decide, by decide,
    fetch_truncated_file_loops_forever storeA scanA 0 5 (by decide) (by decide)⟩

/-! ## C4: a closing marker straddling a read-chunk boundary -/

/-- One iteration of the read loop when the marker is not in the window. -/
theorem fetchLoop_step (bs : Nat) (pat content : List Char) (fuel pos : Nat)
    (xml : List Char) (nb : Nat)
    (h : findSub pat (window bs (xml ++ (content.drop pos).take bs)) = none) :
    fetchLoop bs pat content (fuel + 1) pos xml nb
      = fetchLoop bs pat content fuel (pos + ((content.drop pos).take bs).length)
          (xml ++ (content.drop pos).take bs) (nb + 1) := by
  rw [fetchLoop]
  simp only [h]

/-- Once end-of-file is reached with the marker absent from the current
window, the state repeats forever: every fuel is exhausted. -/
theorem fetchLoop_eof (bs : Nat) (pat content : List Char) (pos : Nat)
    (xml : List Char) (hpos : content.length ≤ pos)
    (h : findSub pat (window bs xml) = none) :
    ∀ fuel nb, fetchLoop bs pat content fuel pos xml nb = .diverged := by
  intro fuel
  induction fuel with
  | zero => intro nb; rfl
  | succ f ih =>
    intro nb
    have hnil : (content.drop pos).take bs = [] := by
      rw [List.drop_eq_nil_of_le hpos, List.take_nil]
    rw [fetchLoop_step bs pat content f pos xml nb
      (by rw [hnil, List.append_nil]; exact h)]
    rw [hnil]
    simp only [List.append_nil, List.length_nil, Nat.add_zero]
    exact ih (nb + 1)

/-- Skipping a run of a letter the pattern cannot start with shifts the
search result. -/
theorem findSub_replicate_append (p : Char) (ps : List Char) (a : Char)
    (hpa : p ≠ a) (n : Nat) (s : List Char) :
    findSub (p :: ps) (List.replicate n a ++ s)
      = (findSub (p :: ps) s).map (· + n) := by
  induction n with
  | zero =>
    rw [List.replicate_zero, List.nil_append]
    cases h : findSub (p :: ps) s <;> simp [h]
  | succ n ih =>
    rw [List.replicate_succ, List.cons_append, findSub]
    have hm : matchesAt (p :: ps) (a :: (List.replicate n a ++ s)) = false := by
      rw [matchesAt]; simp [hpa]
    rw [hm]
    simp only [Bool.false_eq_true, if_false]
    rw [ih]
    cases h : findSub (p :: ps) s with
    | none => simp [h]
    | some m => simp [h]; omega

/-- A pattern whose first character does not occur in the haystack is not
found. -/
theorem findSub_eq_none_of_head_notMem (p : Char) (ps s : List Char)
    (h : p ∉ s) : findSub (p :: ps) s = none := by
  induction s with
  | nil => rfl
  | cons c t ih =>
    rw [findSub]
    have hpc : p ≠ c := fun he => h (by rw [he]; exact List.mem_cons_self c t)
    have hm : matchesAt (p :: ps) (c :: t) = false := by
      rw [matchesAt]; simp [hpc]
    rw [hm]
    simp only [Bool.false_eq_true, if_false]
    rw [ih fun hmem => h (List.mem_cons_of_mem c hmem)]
    rfl

/-- Dropping exactly the left part of an append leaves the right part. -/
theorem drop_append_left {α : Type} (l1 l2 : List α) (n : Nat)
    (h : l1.length = n) : (l1 ++ l2).drop n = l2 := by
  rw [List.drop_append_eq_append_drop, ← h, List.drop_length, Nat.sub_self,
    List.drop_zero, List.nil_append]

/-- Taking exactly the left part of an append yields the left part. -/
theorem take_append_left {α : Type} (l1 l2 : List α) (n : Nat)
    (h : l1.length = n) : (l1 ++ l2).take n = l1 := by
  rw [List.take_append_eq_append_take, ← h, List.take_length, Nat.sub_self,
    List.take_zero, List.append_nil]

theorem chunk4A_len : chunk4A.length = 8000 := by
  rw [chunk4A, List.length_append, List.length_replicate, List.length_take,
    show closingMarker.length = 11 by decide,
    show (5 ⊓ 11 : ℕ) = 5 by decide]

theorem chunk4B_len : chunk4B.length = 8000 := by
  rw [chunk4B, List.length_append, List.length_replicate, List.length_drop,
    show closingMarker.length = 11 by decide]

theorem chunk4C_len : chunk4C.length = 6 := by
  rw [chunk4C, List.length_replicate]

/-- The content of the straddle scenario, cut at its read-chunk
boundaries. -/
theorem content4_eq : content4 = chunk4A ++ (chunk4B ++ chunk4C) := by
  rw [content4, chunk4A, chunk4B, chunk4C]
  rw [List.append_assoc (List.replicate 7995 'a') (closingMarker.take 5)]
  rw [List.append_assoc (closingMarker.drop 5) (List.replicate 7994 'a')]
  rw [← List.replicate_add]
  rw [← List.append_assoc (closingMarker.take 5) (closingMarker.drop 5)]
  rw [List.take_append_drop]
  norm_num

theorem content4_len : content4.length = 16006 := by
  rw [content4_eq, List.length_append, List.length_append, chunk4A_len,
    chunk4B_len, chunk4C_len]

/-- The first read. -/
theorem content4_take1 : (content4.drop 0).take 8000 = chunk4A := by
  rw [List.drop_zero, content4_eq]
  exact take_append_left chunk4A _ 8000 chunk4A_len

theorem content4_drop8000 : content4.drop 8000 = chunk4B ++ chunk4C := by
  rw [content4_eq]
  exact drop_append_left chunk4A _ 8000 chunk4A_len

/-- The second read. -/
theorem content4_take2 : (content4.drop 8000).take 8000 = chunk4B := by
  rw [content4_drop8000]
  exact take_append_left chunk4B chunk4C 8000 chunk4B_len

theorem content4_drop16000 : content4.drop 16000 = chunk4C := by
  rw [show (16000 : ℕ) = 8000 + 8000 by norm_num, ← List.drop_drop,
    content4_drop8000]
  exact drop_append_left chunk4B chunk4C 8000 chunk4B_len

/-- The third read. -/
theorem content4_take3 : (content4.drop 16000).take 8000 = chunk4C := by
  rw [content4_drop16000, List.take_of_length_le (by rw [chunk4C_len]; omega)]

/-- The marker is not found in the first window (it sees only the
marker's first 5 bytes). -/
theorem c4_window1 : findSub closingMarker chunk4A = none := by
  rw [chunk4A, show closingMarker = '<' :: "/spectrum>".toList from rfl]
  rw [findSub_replicate_append '<' "/spectrum>".toList 'a' (by decide) 7995]
  rw [show findSub ('<' :: "/spectrum>".toList)
      (('<' :: "/spectrum>".toList).take 5) = none by decide]
  rfl

/-- The marker is not found in the second window (it sees only the
marker's last 6 bytes — the window of a full 8000-byte chunk contains no
byte of the previous chunk). -/
theorem c4_window2 : findSub closingMarker chunk4B = none := by
  rw [show closingMarker = '<' :: "/spectrum>".toList from rfl]
  apply findSub_eq_none_of_head_notMem
  rw [chunk4B]
  intro hmem
  rcases List.mem_append.mp hmem with hm | hm
  · revert hm; decide
  · rcases (List.mem_replicate.mp hm) with ⟨-, h⟩
    exact absurd h (by decide)

/-- The marker is not found in the third (and final, repeating) window,
which contains only 'a's. -/
theorem c4_window3 :
    findSub closingMarker (List.replicate 8000 'a') = none := by
  rw [show closingMarker = '<' :: "/spectrum>".toList from rfl]
  apply findSub_eq_none_of_head_notMem
  intro hmem
  rcases (List.mem_replicate.mp hmem) with ⟨-, h⟩
  exact absurd h (by decide)

/-- The window after the third read (and at every later iteration): the
last 8000 bytes of the whole file, all 'a's. -/
theorem c4_window3_eq :
    window 8000 ((chunk4A ++ chunk4B) ++ chunk4C)
      = List.replicate 8000 'a' := by
  have hx : (chunk4A ++ chunk4B) ++ chunk4C = content4 := by
    rw [content4_eq, List.append_assoc]
  rw [hx, window, content4_len, show (16006 - 8000 : ℕ) = 8006 by norm_num]
  rw [content4, show (8006 : ℕ) = 7995 + 11 by norm_num, ← List.drop_drop,
    List.append_assoc]
  rw [drop_append_left (List.replicate 7995 'a')
    (closingMarker ++ List.replicate 8000 'a') 7995 (List.length_replicate 7995 'a')]
  exact drop_append_left closingMarker (List.replicate 8000 'a') 11 (by decide)

/-- After the third read the loop is at end-of-file with a marker-free
window: it diverges for every remaining fuel. -/
theorem c4_s3 :
    ∀ fuel nb, fetchLoop 8000 closingMarker content4 fuel 16006
      ((chunk4A ++ chunk4B) ++ chunk4C) nb = .diverged := by
  apply fetchLoop_eof
  · rw [content4_len]
  · rw [c4_window3_eq]; exact c4_window3

/-- From the state after the second read the loop diverges. -/
theorem c4_s2 :
    ∀ fuel, fetchLoop 8000 closingMarker content4 fuel 16000
      (chunk4A ++ chunk4B) 2 = .diverged := by
  intro fuel
  cases fuel with
  | zero => rfl
  | succ f =>
    rw [fetchLoop_step 8000 closingMarker content4 f 16000 (chunk4A ++ chunk4B) 2
      (by rw [content4_take3, c4_window3_eq]; exact c4_window3)]
    rw [content4_take3, chunk4C_len]
    exact c4_s3 f 3

/-- From the state after the first read the loop diverges. -/
theorem c4_s1 :
    ∀ fuel, fetchLoop 8000 closingMarker content4 fuel 8000 chunk4A 1 = .diverged := by
  intro fuel
  cases fuel with
  | zero => rfl
  | succ f =>
    have hwin : window 8000 (chunk4A ++ chunk4B) = chunk4B := by
      rw [window, List.length_append, chunk4A_len, chunk4B_len,
        show (8000 + 8000 - 8000 : ℕ) = 8000 by norm_num]
      exact drop_append_left chunk4A chunk4B 8000 chunk4A_len
    rw [fetchLoop_step 8000 closingMarker content4 f 8000 chunk4A 1
      (by rw [content4_take2, hwin]; exact c4_window2)]
    rw [content4_take2, chunk4B_len]
    exact c4_s2 f

/-- C4 (code_bug): `content4` places the sole "</spectrum>" at bytes
7995..8005, straddling the first read-chunk boundary; both flanking reads
are full 8000-byte chunks, so each search window (the last 8000 bytes of
the accumulated buffer) contains only a proper part of the marker, the
marker is never matched, and the extraction loop never terminates — for
every fuel it is still running.  The claim (the marker is still found and
the fragment equals the buffer truncated after it, i.e. the first 8006
bytes) fails on the code. -/
theorem straddling_marker_never_found :
    content4 = List.replicate 7995 'a' ++ closingMarker ++ List.replicate 8000 'a' ∧
    ∀ fuel, storeB.fetch_scan_data fuel scanA = .diverged := by
  refine ⟨rfl, fun fuel => ?_⟩
  show fetchLoop 8000 closingMarker content4 fuel 0 [] 0 = .diverged
  cases fuel with
  | zero => rfl
  | succ f =>
    have hwin : window 8000 (([] : List Char) ++ chunk4A) = chunk4A := by
      rw [List.nil_append, window, chunk4A_len, Nat.sub_self, List.drop_zero]
    rw [fetchLoop_step 8000 closingMarker content4 f 0 [] 0
      (by rw [content4_take1, hwin]; exact c4_window1)]
    rw [content4_take1, chunk4A_len, List.nil_append]
    exact c4_s1 f

/-! ## C2, C5: construction-time behaviour of `LazyMzML::new` -/

/-- C2 (code_bug): on a parsed envelope with neither an index-list element
nor a bare index element (a non-indexed file), construction does not
succeed with empty offset mappings — it aborts the process via
`.expect("All indexed mzML should have a spectrum index")`, even though
the `None`/`None` branch deliberately builds an empty index list for this
very case. -/
theorem new_nonindexed_panics :
    LazyMzML.new [] mzmlNoIndex
      = NewResult.panicked "All indexed mzML should have a spectrum index" := by
  decide

/-- C5 (code_bug): on an envelope that declares itself indexed but whose
index list lacks the "spectrum" category, construction does not surface a
typed `IndexMissingError` (no such variant exists in `MzMLParseError`) —
it aborts the process via `.expect(...)`. -/
theorem new_missing_spectrum_index_panics :
    LazyMzML.new [] mzmlChromOnly
      = NewResult.panicked "All indexed mzML should have a spectrum index" := by
  decide

/-! ## C3: per-item failures during iteration and peak retrieval -/

/-- C3 (code_bug): a per-item retrieval failure is not returned as a typed
error value.  `mzmlEnvC` constructs successfully into `storeC`, whose
spectrum "s1" has no offset entry; `iter_spectrum` then hits
`.expect("Spectrum data should be retrievable")` — a process abort — on
that item, and `peaks()` on a scan with no "m/z array" hits
`.expect("All spectra should have an m/z array")` likewise. -/
theorem per_item_failure_panics :
    LazyMzML.new [] mzmlEnvC = NewResult.ok storeC ∧
    storeC.iter_spectrum 1 = [SpectrumItem.panicked] ∧
    ScanWithData.peaks inflId scanD0 = PeaksResult.panicked := by
  refine ⟨by decide, by decide, by decide⟩

/-! ## C6: retention-time normalization -/

/-- C6 (counterexample): a scan whose "scan start time" record has value
"2.5" and no unit.  The claim says an absent unit defaults to minutes
(rt = 2.5 minutes) and that rt is none exactly when the record is absent;
the code's `unit_name.as_ref()?` instead returns none although the record
is present. -/
theorem rt_absent_unit_counterexample :
    ScanWithoutData.rt scan6 = RtResult.noneR ∧
    (scan6.scanList.scan.head?.map
      (fun first => (first.cvParam.find? isScanStartTime).isSome)) = some true ∧
    ScanWithoutData.rt scan6 ≠ RtResult.mk (5 / 2) := by
  refine ⟨by decide, by decide, by decide⟩

/-- C6 (corrected, amended): `rt` parses the first acquisition entry's
"scan start time" record and normalizes a present unit — "second" yields
value/60 minutes, "minute" or any other present unit yields value minutes
— but an absent unit yields none rather than defaulting to minutes; rt is
none when the acquisition list is empty, the record is absent, or the
record's unit is absent.  Both scan representations delegate to
`rtFromScanList` definitionally. -/
theorem rt_unit_normalization_amended (sl : ScanList) :
    (∀ first rtCv v, sl.scan.head? = some first →
      first.cvParam.find? isScanStartTime = some rtCv →
      parseDecimal rtCv.value.toList = some v →
      rtFromScanList sl =
        (match rtCv.unitName with
         | none => RtResult.noneR
         | some u => RtResult.mk (if u = "second" then v / 60 else v))) ∧
    (sl.scan.head? = none → rtFromScanList sl = RtResult.noneR) ∧
    (∀ first, sl.scan.head? = some first →
      first.cvParam.find? isScanStartTime = none →
      rtFromScanList sl = RtResult.noneR) := by
  refine ⟨?_, ?_, ?_⟩
  · intro first rtCv v h1 h2 h3
    simp only [rtFromScanList, h1, h2, h3]
    cases hu : rtCv.unitName with
    | none => rfl
    | some u =>
      dsimp only
      by_cases hm : u = "minute"
      · subst hm
        rw [if_pos rfl, if_neg (by decide : ¬("minute" = "second"))]
      · by_cases hs : u = "second"
        · subst hs
          rw [if_neg (by decide : ¬("second" = "minute")), if_pos rfl, if_pos rfl]
        · rw [if_neg hm, if_neg hs, if_neg hs]
  · intro h1
    simp only [rtFromScanList, h1]
  · intro first h1 h2
    simp only [rtFromScanList, h1, h2]

/-- Witness for C6: value "2.5" with unit "second" yields 2.5/60 minutes. -/
theorem rt_unit_normalization_amended_witness :
    rtFromScanList scanList6s = RtResult.mk (5 / 2 / 60) :=
  (rt_unit_normalization_amended scanList6s).1
    { cvParam := [{ name := "scan start time", value := "2.5", unitName := some "second" }] }
    { name := "scan start time", value := "2.5", unitName := some "second" }
    (5 / 2) (by decide) (by decide)
    (by
      show parseDecimal "2.5".toList = some (5 / 2)
      rw [parseDecimal,
        (by decide : parseDecimalParts "2.5".toList = some (2, 5, 1)),
        Option.map_some']
      norm_num)

/-! ## C7: peaks retrieval and mismatched array lengths -/

/-- C7 (counterexample): a scan whose m/z array decodes to 2 values and
whose intensity array decodes to 1 value.  The claim says `peaks` fails
with `ArrayLengthMismatchError` whenever the lengths differ; the code has
no such error (no such variant exists) and returns the truncated zip. -/
theorem peaks_length_mismatch_counterexample :
    BinaryDataArray.decode inflId mzBda7
      = DecodeResult.ok [List.replicate 8 0, List.replicate 8 0] ∧
    BinaryDataArray.decode inflId intBda7
      = DecodeResult.ok [List.replicate 8 0] ∧
    ScanWithData.peaks inflId scan7
      = PeaksResult.ok [(List.replicate 8 0, List.replicate 8 0)] := by
  refine ⟨by decide, by decide, by decide⟩

/-- C7 (corrected, amended): when both arrays are located and decode
successfully, `peaks` performs no length check at all: it returns the
index-wise zip of the two decoded sequences, which silently truncates to
the shorter length; a mismatch is not an error. -/
theorem peaks_zip_truncates_amended (inflate : List Nat → Option (List Nat))
    (s : ScanWithData) (mzA intA : BinaryDataArray)
    (mz intensity : List (List Nat))
    (h1 : s.binaryDataArrayList.find_binary_by_cv_name "m/z array" = some mzA)
    (h2 : s.binaryDataArrayList.find_binary_by_cv_name "intensity array" = some intA)
    (h3 : mzA.decode inflate = DecodeResult.ok mz)
    (h4 : intA.decode inflate = DecodeResult.ok intensity) :
    ScanWithData.peaks inflate s = PeaksResult.ok (mz.zip intensity) ∧
    (mz.zip intensity).length = min mz.length intensity.length := by
  constructor
  · simp only [ScanWithData.peaks, h1, h2, h3, h4]
  · simp [List.length_zip]

/-- Witness for C7: the amended statement evaluated at `scan7`. -/
theorem peaks_zip_truncates_amended_witness :
    scan7.binaryDataArrayList.find_binary_by_cv_name "m/z array" = some mzBda7 ∧
    ScanWithData.peaks inflId scan7
      = PeaksResult.ok ([List.replicate 8 0, List.replicate 8 0].zip
          [List.replicate 8 0]) :=
  ⟨by decide,
    (peaks_zip_truncates_amended inflId scan7 mzBda7 intBda7
      [List.replicate 8 0, List.replicate 8 0] [List.replicate 8 0]
      (by decide) (by decide) (by decide) (by decide)).1⟩

/-! ## C8: the decoder keeps exactly the complete chunks, in order -/

/-- A list shorter than 8 bytes yields no 64-bit chunks. -/
theorem reinterp64_lt_eight (l : List Nat) (hl : l.length < 8)
    (he : reinterp64 l = []) :
    reinterp64 l
      = (List.range (l.length / 8)).map (fun i => (l.drop (8 * i)).take 8) := by
  rw [he, Nat.div_eq_of_lt hl, List.range_zero, List.map_nil]

/-- A list shorter than 4 bytes yields no 32-bit chunks. -/
theorem reinterp32_lt_four (l : List Nat) (hl : l.length < 4)
    (he : reinterp32 l = []) :
    reinterp32 l
      = (List.range (l.length / 4)).map (fun i => (l.drop (4 * i)).take 4) := by
  rw [he, Nat.div_eq_of_lt hl, List.range_zero, List.map_nil]

/-- Characterization of the 64-bit reinterpretation: exactly
`⌊length/8⌋` chunks, the i-th being bytes `8i..8i+8`. -/
theorem reinterp64_eq_aux : ∀ (n : Nat) (l : List Nat), l.length ≤ n →
    reinterp64 l
      = (List.range (l.length / 8)).map (fun i => (l.drop (8 * i)).take 8) := by
  intro n
  induction n with
  | zero =>
    intro l h
    have hl : l = [] := List.eq_nil_of_length_eq_zero (Nat.le_zero.mp h)
    subst hl
    exact reinterp64_lt_eight _ (by norm_num) rfl
  | succ n ih =>
    intro l h
    match l with
    | [] => exact reinterp64_lt_eight _ (by norm_num) rfl
    | [a0] => exact reinterp64_lt_eight _ (by norm_num) rfl
    | [a0, a1] => exact reinterp64_lt_eight _ (by norm_num) rfl
    | [a0, a1, a2] => exact reinterp64_lt_eight _ (by norm_num) rfl
    | [a0, a1, a2, a3] => exact reinterp64_lt_eight _ (by norm_num) rfl
    | [a0, a1, a2, a3, a4] => exact reinterp64_lt_eight _ (by norm_num) rfl
    | [a0, a1, a2, a3, a4, a5] => exact reinterp64_lt_eight _ (by norm_num) rfl
    | [a0, a1, a2, a3, a4, a5, a6] => exact reinterp64_lt_eight _ (by norm_num) rfl
    | a0 :: a1 :: a2 :: a3 :: a4 :: a5 :: a6 :: a7 :: t =>
      rw [show reinterp64 (a0 :: a1 :: a2 :: a3 :: a4 :: a5 :: a6 :: a7 :: t)
          = [a0, a1, a2, a3, a4, a5, a6, a7] :: reinterp64 t from rfl]
      rw [ih t (by simp only [List.length_cons] at h; omega)]
      rw [show (a0 :: a1 :: a2 :: a3 :: a4 :: a5 :: a6 :: a7 :: t).length
          = t.length + 8 from by simp]
      rw [Nat.add_div_right t.length (by norm_num : (0 : ℕ) < 8)]
      rw [List.range_succ_eq_map, List.map_cons]
      congr 1
      rw [List.map_map]
      apply List.map_congr_left
      intro i _
      show (t.drop (8 * i)).take 8
        = ((a0 :: a1 :: a2 :: a3 :: a4 :: a5 :: a6 :: a7 :: t).drop
            (8 * Nat.succ i)).take 8
      rw [Nat.mul_succ]
      rfl

theorem reinterp64_spec (l : List Nat) :
    reinterp64 l
      = (List.range (l.length / 8)).map (fun i => (l.drop (8 * i)).take 8) :=
  reinterp64_eq_aux l.length l (le_refl _)

/-- Characterization of the 32-bit reinterpretation: exactly
`⌊length/4⌋` chunks, the i-th being bytes `4i..4i+4`. -/
theorem reinterp32_eq_aux : ∀ (n : Nat) (l : List Nat), l.length ≤ n →
    reinterp32 l
      = (List.range (l.length / 4)).map (fun i => (l.drop (4 * i)).take 4) := by
  intro n
  induction n with
  | zero =>
    intro l h
    have hl : l = [] := List.eq_nil_of_length_eq_zero (Nat.le_zero.mp h)
    subst hl
    exact reinterp32_lt_four _ (by norm_num) rfl
  | succ n ih =>
    intro l h
    match l with
    | [] => exact reinterp32_lt_four _ (by norm_num) rfl
    | [a0] => exact reinterp32_lt_four _ (by norm_num) rfl
    | [a0, a1] => exact reinterp32_lt_four _ (by norm_num) rfl
    | [a0, a1, a2] => exact reinterp32_lt_four _ (by norm_num) rfl
    | a0 :: a1 :: a2 :: a3 :: t =>
      rw [show reinterp32 (a0 :: a1 :: a2 :: a3 :: t)
          = [a0, a1, a2, a3] :: reinterp32 t from rfl]
      rw [ih t (by simp only [List.length_cons] at h; omega)]
      rw [show (a0 :: a1 :: a2 :: a3 :: t).length = t.length + 4 from by simp]
      rw [Nat.add_div_right t.length (by norm_num : (0 : ℕ) < 4)]
      rw [List.range_succ_eq_map, List.map_cons]
      congr 1
      rw [List.map_map]
      apply List.map_congr_left
      intro i _
      show (t.drop (4 * i)).take 4
        = ((a0 :: a1 :: a2 :: a3 :: t).drop (4 * Nat.succ i)).take 4
      rw [Nat.mul_succ]
      rfl

theorem reinterp32_spec (l : List Nat) :
    reinterp32 l
      = (List.range (l.length / 4)).map (fun i => (l.drop (4 * i)).take 4) :=
  reinterp32_eq_aux l.length l (le_refl _)

/-- Any result of `fzfsStep` has float size 32 or 64. -/
theorem fzfsStep_size (acc : Bool × Nat) (param : CVParam)
    (h : acc.2 = 32 ∨ acc.2 = 64) :
    (fzfsStep acc param).2 = 32 ∨ (fzfsStep acc param).2 = 64 := by
  rw [fzfsStep]
  by_cases h64 : containsName param.name "64-bit float"
  · simp [h64]
  · by_cases h32 : containsName param.name "32-bit float"
    · simp [h64, h32]
    · simp [h64, h32, h]

/-- The detected float size is always 32 or 64 (it starts at 64 and is
only ever overwritten with 32 or 64). -/
theorem fzfs_float_size (cv : List CVParam) :
    (find_zlib_and_float_size cv).2 = 32 ∨ (find_zlib_and_float_size cv).2 = 64 := by
  rw [find_zlib_and_float_size]
  have haux : ∀ (l : List CVParam) (acc : Bool × Nat),
      (acc.2 = 32 ∨ acc.2 = 64) →
      ((l.foldl fzfsStep acc).2 = 32 ∨ (l.foldl fzfsStep acc).2 = 64) := by
    intro l
    induction l with
    | nil => intro acc h; exact h
    | cons p l ih =>
      intro acc h
      rw [List.foldl_cons]
      exact ih _ (fzfsStep_size acc p h)
  exact haux cv (false, 64) (Or.inr rfl)

/-- C8 (confirmed): however the precision flag is detected, the byte
reinterpretation keeps exactly `⌊length/w⌋` complete `w`-byte chunks in
order (`w` = detected float size / 8), silently dropping any trailing
incomplete bytes; a non-multiple length is not an error (the result is
`ok`) and the dropped bytes appear in no output element. -/
theorem decode_drops_trailing_bytes (cv : List CVParam) (binary : List Nat) :
    decodeFloats (find_zlib_and_float_size cv).2 binary
      = DecodeResult.ok
          ((List.range (binary.length / ((find_zlib_and_float_size cv).2 / 8))).map
            (fun i => (binary.drop (((find_zlib_and_float_size cv).2 / 8) * i)).take
              ((find_zlib_and_float_size cv).2 / 8))) := by
  rcases fzfs_float_size cv with h | h <;> rw [h]
  · rw [decodeFloats, if_neg (by norm_num), if_pos rfl,
      show (32 / 8 : ℕ) = 4 by norm_num, reinterp32_spec]
  · rw [decodeFloats, if_pos rfl, show (64 / 8 : ℕ) = 8 by norm_num,
      reinterp64_spec]

/-! ## C9: duplicate reference ids — last one parsed wins -/

/-- Looking a key up after an insert. -/
theorem lookupA_insertHM (m : List (String × Nat)) (k : String) (v : Nat)
    (id : String) :
    lookupA (insertHM m k v) id = if k = id then some v else lookupA m id := by
  induction m with
  | nil => simp [insertHM, lookupA]
  | cons hd tl ih =>
    obtain ⟨k0, v0⟩ := hd
    by_cases hk : k0 = k
    · subst hk
      rw [insertHM, if_pos rfl, lookupA, lookupA]
      by_cases hid : k0 = id <;> simp [hid]
    · rw [insertHM, if_neg hk, lookupA, lookupA, ih]
      by_cases hid : k0 = id
      · subst hid
        have hkid : ¬(k = k0) := fun he => hk he.symm
        rw [if_pos rfl, if_neg hkid, if_pos rfl]
      · rw [if_neg hid]
        by_cases hkid : k = id <;> simp [hkid, hid]

/-- Key membership after an insert. -/
theorem mem_keys_insertHM (m : List (String × Nat)) (k : String) (v : Nat)
    (id : String) :
    id ∈ (insertHM m k v).map Prod.fst ↔ id ∈ m.map Prod.fst ∨ id = k := by
  induction m with
  | nil => simp [insertHM]
  | cons hd tl ih =>
    obtain ⟨k0, v0⟩ := hd
    by_cases hk : k0 = k
    · subst hk
      rw [insertHM, if_pos rfl]
      simp only [List.map_cons, List.mem_cons]
      tauto
    · rw [insertHM, if_neg hk]
      simp only [List.map_cons, List.mem_cons, ih]
      tauto

/-- Inserting preserves distinctness of the keys. -/
theorem keys_nodup_insertHM (m : List (String × Nat)) (k : String) (v : Nat)
    (h : (m.map Prod.fst).Nodup) : ((insertHM m k v).map Prod.fst).Nodup := by
  induction m with
  | nil => simp [insertHM]
  | cons hd tl ih =>
    obtain ⟨k0, v0⟩ := hd
    simp only [List.map_cons, List.nodup_cons] at h
    obtain ⟨hnotin, hnd⟩ := h
    by_cases hk : k0 = k
    · subst hk
      rw [insertHM, if_pos rfl]
      simp only [List.map_cons, List.nodup_cons]
      exact ⟨hnotin, hnd⟩
    · rw [insertHM, if_neg hk]
      simp only [List.map_cons, List.nodup_cons]
      refine ⟨?_, ih hnd⟩
      intro hmem
      rcases (mem_keys_insertHM tl k v k0).mp hmem with hm | he
      · exact hnotin hm
      · exact hk he

/-- The lookup after folding all inserts equals the fold that keeps the
last matching entry. -/
theorem lookupA_foldl_insert (l : List Offset) :
    ∀ (m : List (String × Nat)) (id : String),
      lookupA (l.foldl (fun m o => insertHM m o.idRef o.offset) m) id
        = l.foldl (fun acc o => if o.idRef = id then some o.offset else acc)
            (lookupA m id) := by
  induction l with
  | nil => intro m id; rfl
  | cons o l ih =>
    intro m id
    rw [List.foldl_cons, List.foldl_cons, ih, lookupA_insertHM]

/-- Folding the inserts preserves distinctness of the keys. -/
theorem keys_nodup_foldl (l : List Offset) :
    ∀ m : List (String × Nat), (m.map Prod.fst).Nodup →
      ((l.foldl (fun m o => insertHM m o.idRef o.offset) m).map Prod.fst).Nodup := by
  induction l with
  | nil => intro m h; exact h
  | cons o l ih =>
    intro m h
    rw [List.foldl_cons]
    exact ih _ (keys_nodup_insertHM m o.idRef o.offset h)

/-- Whether any entry matched. -/
theorem lastOffsetWins_isSome_aux (offsets : List Offset) (id : String) :
    ∀ acc : Option Nat,
      (offsets.foldl (fun acc o => if o.idRef = id then some o.offset else acc)
        acc).isSome = true
        ↔ acc.isSome = true ∨ ∃ o ∈ offsets, o.idRef = id := by
  induction offsets with
  | nil => intro acc; simp
  | cons o l ih =>
    intro acc
    rw [List.foldl_cons, ih]
    by_cases h : o.idRef = id
    · simp [h]
    · simp [h]

/-- C9 (confirmed): the offset mapping built at construction maps every
id to the byte offset of the last index entry with that id in parse order
(`HashMap::insert` overwrites, so the last one parsed wins), its keys are
distinct (one entry per distinct id), and an id is present exactly when
some entry carries it. -/
theorem offset_map_last_wins (offsets : List Offset) (id : String) :
    lookupA (buildOffsetMap offsets) id = lastOffsetWins offsets id ∧
    ((buildOffsetMap offsets).map Prod.fst).Nodup ∧
    ((lookupA (buildOffsetMap offsets) id).isSome = true
      ↔ ∃ o ∈ offsets, o.idRef = id) := by
  have h1 : lookupA (buildOffsetMap offsets) id = lastOffsetWins offsets id := by
    rw [buildOffsetMap, lastOffsetWins, lookupA_foldl_insert]
    rfl
  refine ⟨h1, keys_nodup_foldl offsets [] (by simp), ?_⟩
  rw [h1, lastOffsetWins, lastOffsetWins_isSome_aux]
  simp

/-! ## C10: the precision flag is always 32 or 64; the panic branch is
unreachable -/

/-- A cv record with neither precision flag leaves the float size
unchanged. -/
theorem fzfsStep_default (acc : Bool × Nat) (param : CVParam)
    (h32 : containsName param.name "32-bit float" = false)
    (h64 : containsName param.name "64-bit float" = false) :
    (fzfsStep acc param).2 = acc.2 := by
  rw [fzfsStep]
  simp [h32, h64]

/-- A cv list with neither precision flag keeps the starting float size. -/
theorem fzfs_default_aux : ∀ (cv : List CVParam) (acc : Bool × Nat),
    (∀ p ∈ cv, containsName p.name "32-bit float" = false ∧
      containsName p.name "64-bit float" = false) →
    (cv.foldl fzfsStep acc).2 = acc.2 := by
  intro cv
  induction cv with
  | nil => intro acc _; rfl
  | cons p l ih =>
    intro acc h
    rw [List.foldl_cons,
      ih (fzfsStep acc p) (fun q hq => h q (List.mem_cons_of_mem p hq))]
    exact fzfsStep_default acc p (h p (List.mem_cons_self p l)).1
      (h p (List.mem_cons_self p l)).2

/-- C10 (confirmed): `find_zlib_and_float_size` only ever returns float
size 32 or 64 (a cv list without either precision substring keeps the
default 64), so `decode` never reaches its `panic!("Unknow data size...")`
branch: for every input and every inflater the decode outcome is not the
abort. -/
theorem float_size_always_known (inflate : List Nat → Option (List Nat))
    (a : BinaryDataArray) :
    ((find_zlib_and_float_size a.cvParam).2 = 32 ∨
      (find_zlib_and_float_size a.cvParam).2 = 64) ∧
    ((∀ p ∈ a.cvParam, containsName p.name "32-bit float" = false ∧
        containsName p.name "64-bit float" = false) →
      (find_zlib_and_float_size a.cvParam).2 = 64) ∧
    BinaryDataArray.decode inflate a ≠ DecodeResult.panicked := by
  refine ⟨fzfs_float_size _, fun h => fzfs_default_aux a.cvParam (false, 64) h, ?_⟩
  have hdf : ∀ b : List Nat,
      decodeFloats (find_zlib_and_float_size a.cvParam).2 b
        ≠ DecodeResult.panicked := by
    intro b
    rcases fzfs_float_size a.cvParam with h | h <;> rw [decodeFloats, h] <;> simp
  rw [BinaryDataArray.decode]
  split
  · simp
  · dsimp only
    split
    · simp
    · exact hdf _

/-- Witness for C10: an array with no cv records at all. -/
theorem float_size_always_known_witness :
    (find_zlib_and_float_size bdaPlain.cvParam).2 = 64 ∧
    BinaryDataArray.decode inflId bdaPlain ≠ DecodeResult.panicked :=
  ⟨(float_size_always_known inflId bdaPlain).2.1
      (by intro p hp; simp [bdaPlain] at hp),
    (float_size_always_known inflId bdaPlain).2.2⟩

end MzmlModel
